import Mathlib

/-!
Verification of the chatloop worker/coordinator core against its
specification.  Rust source files are shallowly embedded: `f32` values are
modelled as `ℚ` (exact arithmetic; float intrinsics such as `exp`, `sqrt`
and `sin` are passed in as oracle functions), `usize`/`u32`/`u64` as `ℕ`,
fallible functions as `Except` or as a pair of the mutated state and an
optional error, mirroring Rust's `&mut self` plus `Result`.
-/

/-- Error taxonomy, from `crates/common/src/error.rs` (`ChatLoopError`);
only the variants exercised by the embedded code are modelled. -/
inductive ChatLoopError where
  | Config : String → ChatLoopError
  | Model : String → ChatLoopError
  | Tensor : String → ChatLoopError
  | MemoryMap : String → ChatLoopError
  | QueueFull : String → ChatLoopError
  | Timeout : String → ChatLoopError
  | WorkerUnavailable : String → ChatLoopError
  | Connection : String → ChatLoopError
  | InvalidInput : String → ChatLoopError
deriving DecidableEq, Repr

/-! ## KV cache, from `crates/worker/src/model.rs` (`KVCache`)

The Rust struct stores `keys` and `values` as flat `f32` buffers of size
`num_layers * num_heads * max_len * head_dim`.  We model the buffers as
`List ℚ`.  Rust's `buf[a..b].copy_from_slice(xs)` (with `b = a + xs.length`)
is modelled by `writeSlice`; all states exercised by the theorems keep the
writes inside the buffer, where the model agrees with Rust (out-of-bounds
slicing would panic in Rust and is outside every claim). -/

structure KVCache where
  keys : List ℚ
  values : List ℚ
  seqLen : ℕ
  maxLen : ℕ
  numLayers : ℕ
  numHeads : ℕ
  headDim : ℕ
deriving DecidableEq, Repr

/-- Overwrite `xs.length` elements of `buf` starting at index `start`,
the model of `buf[start..start + xs.len()].copy_from_slice(xs)`. -/
def writeSlice (buf : List ℚ) (start : ℕ) (xs : List ℚ) : List ℚ :=
  buf.take start ++ xs ++ buf.drop (start + xs.length)

/-- `KVCache::new`: zero-filled buffers, `seq_len = 0`. -/
def KVCache.new (numLayers numHeads headDim maxLen : ℕ) : KVCache :=
  { keys := List.replicate (numLayers * numHeads * maxLen * headDim) 0
    values := List.replicate (numLayers * numHeads * maxLen * headDim) 0
    seqLen := 0
    maxLen := maxLen
    numLayers := numLayers
    numHeads := numHeads
    headDim := headDim }

/-- `KVCache::append`.  Mirrors the source line by line: the two guard
checks return `Err` before any mutation; otherwise the key and value
slices are copied in at
`layer_idx * num_heads * max_len * head_dim + seq_len * head_dim`
and `seq_len` is incremented.  The mutated cache is returned together
with the optional error, mirroring `&mut self` plus `Result<()>`. -/
def KVCache.append (c : KVCache) (layerIdx : ℕ) (ks vs : List ℚ) :
    KVCache × Option ChatLoopError :=
  if c.numLayers ≤ layerIdx then
    (c, some (ChatLoopError.Tensor "Layer index out of bounds"))
  else if c.maxLen ≤ c.seqLen then
    (c, some (ChatLoopError.Tensor "KV cache full"))
  else
    let offset := layerIdx * c.numHeads * c.maxLen * c.headDim + c.seqLen * c.headDim
    ({ c with
        keys := writeSlice c.keys offset ks
        values := writeSlice c.values offset vs
        seqLen := c.seqLen + 1 }, none)

/-- `KVCache::get_keys`: `None` for `pos >= seq_len`, otherwise the
`num_heads * head_dim` elements starting at
`layer_idx * num_heads * max_len * head_dim + pos * head_dim`. -/
def KVCache.getKeys (c : KVCache) (layerIdx pos : ℕ) : Option (List ℚ) :=
  if c.seqLen ≤ pos then none
  else
    let offset := layerIdx * c.numHeads * c.maxLen * c.headDim + pos * c.headDim
    some ((c.keys.drop offset).take (c.numHeads * c.headDim))

/-- `KVCache::get_values`, same indexing as `get_keys`. -/
def KVCache.getValues (c : KVCache) (layerIdx pos : ℕ) : Option (List ℚ) :=
  if c.seqLen ≤ pos then none
  else
    let offset := layerIdx * c.numHeads * c.maxLen * c.headDim + pos * c.headDim
    some ((c.values.drop offset).take (c.numHeads * c.headDim))

/-- A cache over 1 layer, 2 heads, head_dim 1, max_len 4, after appending
the key vectors `[1, 2]` then `[3, 4]` at positions 0 and 1. -/
def kvDemoTwoAppends : KVCache :=
  (((KVCache.new 1 2 1 4).append 0 [1, 2] [10, 20]).1.append 0 [3, 4] [30, 40]).1

/-- C2: the position stride in `append`/`get_keys` is `head_dim`, not
`num_heads * head_dim`, so with `num_heads = 2` consecutive appends overlap:
after appending `[1, 2]` at position 0 and `[3, 4]` at position 1,
`get_keys(0, 0)` returns `[1, 3]` — not the appended vector `[1, 2]`. -/
theorem kv_append_get_overlap_eval :
    kvDemoTwoAppends.getKeys 0 0 = some [1, 3] ∧
    kvDemoTwoAppends.getKeys 0 0 ≠ some [1, 2] := by
  constructor
  · rfl
  · decide

/-- A cache over 2 layers (1 head, head_dim 1, max_len 2) after one
generation step that appends once per layer, as the spec describes. -/
def kvDemoTwoLayers : KVCache :=
  (((KVCache.new 2 1 1 2).append 0 [1] [1]).1.append 1 [2] [2]).1

/-- C4: `append` increments `seq_len` on every call, i.e. once per layer,
not once per generation step: after one step writing each of the 2 layers,
`seq_len` is 2 (the claim says 1), and the layers do not share the populated
prefix — layer 1's data landed at position 1, so `get_keys(1, 0)` returns the
never-written zero vector `[0]`. -/
theorem kv_seqlen_per_layer_eval :
    kvDemoTwoLayers.seqLen = 2 ∧
    kvDemoTwoLayers.getKeys 1 0 = some [0] ∧
    kvDemoTwoLayers.getKeys 0 1 = some [0] := by
  refine ⟨rfl, rfl, rfl⟩

/-- C10: `KVCache::append` is atomic on error — it returns an error exactly
when the layer index is out of range or the cache is full, and in that case
the cache (keys, values and `seq_len`) is exactly as before the call. -/
theorem kv_append_atomic_on_error (c : KVCache) (layerIdx : ℕ) (ks vs : List ℚ)
    (h : ((c.append layerIdx ks vs).2).isSome) :
    (c.append layerIdx ks vs).1 = c ∧
    (c.numLayers ≤ layerIdx ∨ c.maxLen ≤ c.seqLen) := by
  unfold KVCache.append at *
  by_cases h1 : c.numLayers ≤ layerIdx
  · simp [h1]
  · by_cases h2 : c.maxLen ≤ c.seqLen
    · simp [h1, h2]
    · simp [h1, h2] at h

/-- Witness for C10 at a concrete full cache: appending to a 1-layer cache
with `max_len = 1` that already holds one position errors and leaves the
cache untouched. -/
theorem kv_append_atomic_on_error_witness :
    ((((KVCache.new 1 1 1 1).append 0 [1] [1]).1.append 0 [2] [2]).2).isSome ∧
    ((((KVCache.new 1 1 1 1).append 0 [1] [1]).1.append 0 [2] [2]).1 =
      ((KVCache.new 1 1 1 1).append 0 [1] [1]).1 ∨ False) :=
  ⟨by decide, Or.inl (kv_append_atomic_on_error _ 0 [2] [2] (by decide)).1⟩

/-! ## Batch scheduler, from `crates/worker/src/batching.rs`

The scheduler's queue is a multi-producer/single-consumer `SegQueue` with an
atomic depth counter.  We model its sequential semantics: the queue is a
`List`, the depth counter a `ℕ`, and `notify_one` calls are counted.  Within
one `next_batch` call no concurrent submissions are modelled; the outcome of
the first bounded wait is an oracle parameter, and the inner drain loop's
remaining-window budget is a fuel parameter counting the loop iterations the
window permits. -/

structure InferenceRequest where
  requestId : String
  sequenceId : ℕ
  tokens : List ℤ
  temperature : ℚ
  topP : ℚ
  topK : ℤ
  maxTokens : ℕ
  arrivalTime : ℕ
deriving DecidableEq, Repr

/-- `RequestBatch`; `creation_time` is an abstract `ℕ` timestamp. -/
structure RequestBatch where
  requests : List InferenceRequest
  creationTime : ℕ
  maxSeqLen : ℕ
deriving DecidableEq, Repr

/-- `RequestBatch::new` at an abstract creation instant. -/
def RequestBatch.new (now : ℕ) : RequestBatch :=
  { requests := [], creationTime := now, maxSeqLen := 0 }

/-- `RequestBatch::add`: tracks `max_seq_len` and appends the request. -/
def RequestBatch.add (b : RequestBatch) (r : InferenceRequest) : RequestBatch :=
  { b with
      maxSeqLen := max b.maxSeqLen r.tokens.length
      requests := b.requests ++ [r] }

structure BatchingConfig where
  maxBatchSize : ℕ
  batchingWindowMs : ℕ
  maxQueueSize : ℕ
  queueTimeoutMs : ℕ
deriving DecidableEq, Repr

/-- Scheduler state: queue contents, the atomic depth counter, the shutdown
flag, and the number of `notify_one` signals issued so far. -/
structure SchedState where
  queue : List InferenceRequest
  depth : ℕ
  shutdown : Bool
  notifies : ℕ
deriving DecidableEq, Repr

/-- Fresh scheduler state (`BatchScheduler::new`). -/
def SchedState.init : SchedState :=
  { queue := [], depth := 0, shutdown := false, notifies := 0 }

/-- `BatchScheduler::submit`: reject with `QueueFull` when the depth counter
has reached `max_queue_size`, otherwise push, bump the counter and signal
one waiter. -/
def SchedState.submit (cfg : BatchingConfig) (s : SchedState)
    (r : InferenceRequest) : SchedState × Option ChatLoopError :=
  if cfg.maxQueueSize ≤ s.depth then
    (s, some (ChatLoopError.QueueFull "Request queue is full, rejecting new request"))
  else
    ({ s with
        queue := s.queue ++ [r]
        depth := s.depth + 1
        notifies := s.notifies + 1 }, none)

/-- Outcome of the first bounded wait inside `next_batch`. -/
inductive WaitOutcome where
  | notified
  | timedOut
deriving DecidableEq, Repr

/-- The collection loop of `next_batch` (source lines 186-200): keep popping
while the batch is under `max_batch_size` and the window has time left
(`fuel` iterations).  With no concurrent producers an empty queue stays
empty, so the loop then idles until the window expires. -/
def drainLoop (cfg : BatchingConfig) :
    ℕ → List InferenceRequest → ℕ → RequestBatch →
    List InferenceRequest × ℕ × RequestBatch
  | 0, q, depth, batch => (q, depth, batch)
  | fuel + 1, q, depth, batch =>
    if batch.requests.length < cfg.maxBatchSize then
      match q with
      | r :: rest => drainLoop cfg fuel rest (depth - 1) (batch.add r)
      | [] => ([], depth, batch)
    else (q, depth, batch)

/-- `BatchScheduler::next_batch`.  Mirrors the source control flow: the
shutdown check, a first pop, then the bounded wait whose timeout is mapped
(by `map_err` + `?`) to a returned `ChatLoopError::Timeout`, then the second
pop (which in the sequential model still sees an empty queue, giving
`Ok(None)`), and finally the collection loop. -/
def SchedState.nextBatch (cfg : BatchingConfig) (s : SchedState)
    (wait1 : WaitOutcome) (fuel : ℕ) (now : ℕ) :
    SchedState × Except ChatLoopError (Option RequestBatch) :=
  if s.shutdown then (s, .ok none)
  else
    match s.queue with
    | r :: rest =>
      let start := drainLoop cfg fuel rest (s.depth - 1) ((RequestBatch.new now).add r)
      ({ s with queue := start.1, depth := start.2.1 }, .ok (some start.2.2))
    | [] =>
      match wait1 with
      | .timedOut => (s, .error (ChatLoopError.Timeout "Batching window timeout"))
      | .notified => (s, .ok none)

/-- C3: with the queue empty for the whole batching window, `next_batch`
returns `Err(Timeout)` — the first bounded wait's elapse is converted to an
error by `map_err(..)?`, making the `Ok(None)` branch (and the comment
announcing it) unreachable.  The claim (and the spec) say the idle window
yields an absent batch, not an error. -/
theorem next_batch_timeout_error_eval :
    ∀ fuel now,
      SchedState.init.nextBatch ⟨4, 10, 100, 1000⟩ WaitOutcome.timedOut fuel now =
        (SchedState.init, .error (ChatLoopError.Timeout "Batching window timeout")) := by
  intro fuel now
  rfl

/-- Scheduler shutdown (`BatchScheduler::shutdown`): set the flag and wake
all waiters (waking is invisible in the sequential state). -/
def SchedState.shutdownOp (s : SchedState) : SchedState :=
  { s with shutdown := true }

/-- States reachable from a fresh scheduler by any interleaving of
`submit`, `next_batch` and `shutdown`. -/
inductive SchedReachable (cfg : BatchingConfig) : SchedState → Prop where
  | init : SchedReachable cfg SchedState.init
  | submit (s : SchedState) (r : InferenceRequest) :
      SchedReachable cfg s → SchedReachable cfg (s.submit cfg r).1
  | next (s : SchedState) (w : WaitOutcome) (fuel now : ℕ) :
      SchedReachable cfg s → SchedReachable cfg (s.nextBatch cfg w fuel now).1
  | shut (s : SchedState) :
      SchedReachable cfg s → SchedReachable cfg s.shutdownOp

/-- In the drain loop the depth counter never increases. -/
theorem drainLoop_depth_le (cfg : BatchingConfig) :
    ∀ fuel q depth batch, (drainLoop cfg fuel q depth batch).2.1 ≤ depth := by
  intro fuel
  induction fuel with
  | zero => intro q depth batch; simp [drainLoop]
  | succ n ih =>
    intro q depth batch
    simp only [drainLoop]
    by_cases hb : batch.requests.length < cfg.maxBatchSize
    · simp only [hb, if_true]
      match q with
      | [] => simp
      | r :: rest => exact le_trans (ih rest (depth - 1) (batch.add r)) (Nat.sub_le _ _)
    · simp [hb]

/-- C8: `submit` returns `QueueFull` exactly when the depth counter has
reached `max_queue_size`; otherwise the request is enqueued, the depth
counter is incremented and one waiter is signalled; and along any sequence
of `submit` / `next_batch` / `shutdown` calls the depth never exceeds
`max_queue_size`. -/
theorem submit_backpressure_inv (cfg : BatchingConfig) :
    (∀ (s : SchedState) (r : InferenceRequest), ((s.submit cfg r).2 =
        some (ChatLoopError.QueueFull "Request queue is full, rejecting new request")) ↔
        cfg.maxQueueSize ≤ s.depth) ∧
    (∀ (s : SchedState) (r : InferenceRequest), s.depth < cfg.maxQueueSize →
        (s.submit cfg r) =
          ({ s with
              queue := s.queue ++ [r]
              depth := s.depth + 1
              notifies := s.notifies + 1 }, none)) ∧
    (∀ (s : SchedState), SchedReachable cfg s → s.depth ≤ cfg.maxQueueSize) := by
  refine ⟨?_, ?_, ?_⟩
  · intro s r
    by_cases h : cfg.maxQueueSize ≤ s.depth
    · simp [SchedState.submit, h]
    · simp [SchedState.submit, h]
  · intro s r h
    simp [SchedState.submit, Nat.not_le.mpr h]
  · intro s hs
    induction hs with
    | init => exact Nat.zero_le _
    | submit s r _ ih =>
      by_cases h : cfg.maxQueueSize ≤ s.depth
      · simpa [SchedState.submit, h] using ih
      · simpa [SchedState.submit, h] using Nat.not_le.mp h
    | next s w fuel now _ ih =>
      unfold SchedState.nextBatch
      by_cases hsh : s.shutdown
      · simpa [hsh] using ih
      · match hq : s.queue with
        | [] =>
          match w with
          | .timedOut => simpa [hsh, hq] using ih
          | .notified => simpa [hsh, hq] using ih
        | r :: rest =>
          simp only [hsh, hq, Bool.false_eq_true, if_false]
          exact le_trans (le_trans (drainLoop_depth_le cfg fuel rest (s.depth - 1) _)
            (Nat.sub_le _ _)) ih
    | shut s _ ih => simpa [SchedState.shutdownOp] using ih

/-- Witness for C8 at concrete inputs: with `max_queue_size = 1`, one submit
from the initial state is accepted and a second is rejected with
`QueueFull`; the reached state has depth 1 ≤ 1. -/
theorem submit_backpressure_inv_witness :
    ((SchedState.init.submit ⟨4, 10, 1, 1000⟩
        ⟨"r1", 0, [1], 1, 1, 1, 1, 0⟩).1.depth ≤ 1) ∧
    (((SchedState.init.submit ⟨4, 10, 1, 1000⟩ ⟨"r1", 0, [1], 1, 1, 1, 1, 0⟩).1.submit
        ⟨4, 10, 1, 1000⟩ ⟨"r2", 1, [1], 1, 1, 1, 1, 0⟩).2 =
      some (ChatLoopError.QueueFull "Request queue is full, rejecting new request")) :=
  ⟨(submit_backpressure_inv ⟨4, 10, 1, 1000⟩).2.2 _
      (SchedReachable.submit _ _ SchedReachable.init),
    ((submit_backpressure_inv ⟨4, 10, 1, 1000⟩).1 _ _).mpr (by decide)⟩

/-! ## Router, from `crates/coordinator/src/router.rs`

The worker table (`HashMap<String, WorkerInfo>` behind an `RwLock`) is
modelled as an association list in an arbitrary iteration order; `Instant`
timestamps are abstract `ℕ` values supplied by the caller.  `f64` load
scores (`queue_depth as f64`, or `f64::INFINITY` when unhealthy) are
modelled as `WithTop ℕ`. -/

structure WorkerInfo where
  endpoint : String
  workerId : String
  layerGroup : ℕ × ℕ
  queueDepth : ℕ
  healthy : Bool
  lastHealthCheck : ℕ
  failureCount : ℕ
deriving DecidableEq, Repr

/-- `WorkerInfo::new` at an abstract current instant. -/
def WorkerInfo.new (endpoint workerId : String) (layerGroup : ℕ × ℕ)
    (now : ℕ) : WorkerInfo :=
  { endpoint := endpoint
    workerId := workerId
    layerGroup := layerGroup
    queueDepth := 0
    healthy := true
    lastHealthCheck := now
    failureCount := 0 }

/-- `WorkerInfo::load_score`: `f64::INFINITY` (modelled `⊤`) when unhealthy,
otherwise the queue depth. -/
def WorkerInfo.loadScore (w : WorkerInfo) : WithTop ℕ :=
  if w.healthy then (w.queueDepth : WithTop ℕ) else ⊤

/-- The router's worker table, in iteration order. -/
abbrev WorkerTable := List (String × WorkerInfo)

/-- `Iterator::min_by` over load scores: `None` on the empty iterator,
otherwise a fold keeping the first element among equal minima. -/
def minByLoadScore : List WorkerInfo → Option WorkerInfo
  | [] => none
  | w :: ws =>
    some (ws.foldl (fun acc x => if x.loadScore < acc.loadScore then x else acc) w)

/-- `Router::select_worker`: error when the table is empty; otherwise the
healthy worker with minimum load score, or `WorkerUnavailable` when no
healthy worker remains. -/
def Router.selectWorker (workers : List WorkerInfo) : Except ChatLoopError String :=
  if workers.isEmpty then
    .error (ChatLoopError.WorkerUnavailable "No workers available")
  else
    match minByLoadScore (workers.filter (·.healthy)) with
    | some w => .ok w.endpoint
    | none => .error (ChatLoopError.WorkerUnavailable "No healthy workers available")

/-- `Router::register_worker`, successful-connection path: insert (replace)
the record under its endpoint.  When `WorkerClient::connect` fails the
function returns a `Connection` error before touching the table, which
trivially preserves every table invariant, so only the inserting path is
modelled. -/
def Router.registerWorker (tbl : WorkerTable) (info : WorkerInfo) : WorkerTable :=
  (List.filter (fun p => p.1 ≠ info.endpoint) tbl) ++ [(info.endpoint, info)]

/-- `Router::mark_failed`: increment the failure counter of the entry for
`endpoint` (if present) and clear its health flag once the counter has
reached `failure_threshold`. -/
def Router.markFailed (threshold : ℕ) (tbl : WorkerTable) (endpoint : String) :
    WorkerTable :=
  tbl.map (fun p =>
    if p.1 = endpoint then
      let w := { p.2 with failureCount := p.2.failureCount + 1 }
      if threshold ≤ w.failureCount then (p.1, { w with healthy := false })
      else (p.1, w)
    else p)

/-- `Router::mark_healthy`: set the health flag, reset the failure counter
and stamp the probe time on the entry for `endpoint` (if present). -/
def Router.markHealthy (tbl : WorkerTable) (endpoint : String) (now : ℕ) :
    WorkerTable :=
  tbl.map (fun p =>
    if p.1 = endpoint then
      (p.1, { p.2 with healthy := true, failureCount := 0, lastHealthCheck := now })
    else p)

/-- `Router::update_queue_depth`: overwrite the queue depth of the entry for
`endpoint` (if present). -/
def Router.updateQueueDepth (tbl : WorkerTable) (endpoint : String) (depth : ℕ) :
    WorkerTable :=
  tbl.map (fun p => if p.1 = endpoint then (p.1, { p.2 with queueDepth := depth }) else p)

/-- The claimed table invariant: a failure count at or above the threshold
forces the health flag off. -/
abbrev RouterInv (threshold : ℕ) (tbl : WorkerTable) : Prop :=
  ∀ p ∈ tbl, threshold ≤ p.2.failureCount → p.2.healthy = false

/-- The fold inside `minByLoadScore` stays within the candidate set. -/
theorem foldlMinLoad_mem (l : List WorkerInfo) (a : WorkerInfo) :
    l.foldl (fun acc x => if x.loadScore < acc.loadScore then x else acc) a ∈ a :: l := by
  induction l generalizing a with
  | nil => simp
  | cons b bs ih =>
    simp only [List.foldl_cons]
    by_cases hb : b.loadScore < a.loadScore
    · simp only [hb, if_true]
      exact List.mem_cons_of_mem a (ih b)
    · simp only [hb, if_false]
      rcases List.mem_cons.mp (ih a) with h | h
      · rw [h]; exact List.mem_cons_self _ _
      · exact List.mem_cons_of_mem a (List.mem_cons_of_mem b h)

/-- The fold inside `minByLoadScore` reaches a minimal load score. -/
theorem foldlMinLoad_le (l : List WorkerInfo) (a : WorkerInfo) :
    ∀ x ∈ a :: l,
      (l.foldl (fun acc y => if y.loadScore < acc.loadScore then y else acc) a).loadScore
        ≤ x.loadScore := by
  induction l generalizing a with
  | nil =>
    intro x hx
    rcases List.mem_cons.mp hx with h | h
    · subst h; exact le_refl _
    · cases h
  | cons b bs ih =>
    intro x hx
    simp only [List.foldl_cons]
    have hsel_a : (if b.loadScore < a.loadScore then b else a).loadScore ≤ a.loadScore := by
      by_cases hb : b.loadScore < a.loadScore
      · simp [hb, le_of_lt hb]
      · simp [hb]
    have hsel_b : (if b.loadScore < a.loadScore then b else a).loadScore ≤ b.loadScore := by
      by_cases hb : b.loadScore < a.loadScore
      · simp [hb]
      · simp [hb, not_lt.mp hb]
    rcases List.mem_cons.mp hx with h | h
    · rw [h]
      exact le_trans (ih _ _ (List.mem_cons_self _ _)) hsel_a
    · rcases List.mem_cons.mp h with h2 | h2
      · rw [h2]
        exact le_trans (ih _ _ (List.mem_cons_self _ _)) hsel_b
      · exact ih _ x (List.mem_cons_of_mem _ h2)

/-- C6: when at least one worker in the table is healthy, `select_worker`
returns the endpoint of a healthy worker whose load score is minimal among
the healthy workers; when none is healthy (including the empty table) it
returns `WorkerUnavailable`. -/
theorem select_worker_min_load (workers : List WorkerInfo) :
    ((∃ w ∈ workers, w.healthy = true) →
      ∃ w ∈ workers, w.healthy = true ∧ Router.selectWorker workers = .ok w.endpoint ∧
        ∀ w' ∈ workers, w'.healthy = true → w.loadScore ≤ w'.loadScore) ∧
    ((∀ w ∈ workers, w.healthy = false) →
      ∃ msg, Router.selectWorker workers = .error (ChatLoopError.WorkerUnavailable msg)) := by
  constructor
  · rintro ⟨w0, hw0, hw0h⟩
    have hne : workers.isEmpty = false := by
      cases workers with
      | nil => cases hw0
      | cons a l => rfl
    have hfil : w0 ∈ workers.filter (·.healthy) :=
      List.mem_filter.mpr ⟨hw0, by simp [hw0h]⟩
    obtain ⟨a, l, hq⟩ : ∃ a l, workers.filter (·.healthy) = a :: l := by
      cases hql : workers.filter (·.healthy) with
      | nil => rw [hql] at hfil; cases hfil
      | cons a l => exact ⟨a, l, rfl⟩
    have hm : minByLoadScore (workers.filter (·.healthy)) =
        some (l.foldl (fun acc y => if y.loadScore < acc.loadScore then y else acc) a) := by
      rw [hq]; rfl
    have hmem : (l.foldl (fun acc y => if y.loadScore < acc.loadScore then y else acc) a)
        ∈ workers.filter (·.healthy) := by
      rw [hq]; exact foldlMinLoad_mem l a
    have hmin : ∀ x ∈ workers.filter (·.healthy),
        (l.foldl (fun acc y => if y.loadScore < acc.loadScore then y else acc) a).loadScore
          ≤ x.loadScore := by
      rw [hq]; exact foldlMinLoad_le l a
    refine ⟨_, (List.mem_filter.mp hmem).1, ?_, ?_, ?_⟩
    · have := (List.mem_filter.mp hmem).2
      simpa using this
    · simp only [Router.selectWorker, hne, Bool.false_eq_true, if_false, hm]
    · intro w' hw' hw'h
      exact hmin w' (List.mem_filter.mpr ⟨hw', by simp [hw'h]⟩)
  · intro hall
    by_cases hne : workers.isEmpty
    · exact ⟨"No workers available", by simp only [Router.selectWorker, hne, if_true]⟩
    · have hq : workers.filter (·.healthy) = [] := by
        rw [List.filter_eq_nil_iff]
        intro w hw
        simp [hall w hw]
      refine ⟨"No healthy workers available", ?_⟩
      rw [Bool.not_eq_true] at hne
      simp only [Router.selectWorker, hne, Bool.false_eq_true, if_false, hq, minByLoadScore]

/-- Two concrete workers for the selection witness: A with depth 2, B with
depth 5, both healthy (spec seed case 5). -/
def demoWorkerA : WorkerInfo :=
  { WorkerInfo.new "http://a" "worker-a" (0, 16) 0 with queueDepth := 2 }

/-- Second demo worker, higher queue depth. -/
def demoWorkerB : WorkerInfo :=
  { WorkerInfo.new "http://b" "worker-b" (16, 32) 0 with queueDepth := 5 }

/-- Witness for C6: with healthy workers A (depth 2) and B (depth 5), the
hypothesis holds and a healthy minimal-load worker's endpoint is returned. -/
theorem select_worker_min_load_witness :
    ∃ w ∈ [demoWorkerA, demoWorkerB], w.healthy = true ∧
      Router.selectWorker [demoWorkerA, demoWorkerB] = .ok w.endpoint ∧
      ∀ w' ∈ [demoWorkerA, demoWorkerB], w'.healthy = true → w.loadScore ≤ w'.loadScore :=
  (select_worker_min_load [demoWorkerA, demoWorkerB]).1
    ⟨demoWorkerA, by simp [demoWorkerA, WorkerInfo.new]⟩

/-- C7 counterexample: with `failure_threshold = 0`, registering a fresh
worker built by `WorkerInfo::new` (healthy, zero failures) already violates
`failure_count ≥ failure_threshold ⇒ healthy = false`, so the claimed
invariant is not maintained across `register_worker`. -/
theorem router_invariant_cex :
    ¬ RouterInv 0
      (Router.registerWorker [] (WorkerInfo.new "http://a" "worker-a" (0, 16) 0)) := by
  decide

/-- C7 amended: provided the threshold is at least 1 (needed by
`mark_healthy`) and every record handed to `register_worker` itself
satisfies the implication (as `WorkerInfo::new` records do when the
threshold is ≥ 1), each of the four operations preserves the invariant;
and `mark_healthy` sets the health flag, zeroes the failure counter and
stamps the probe time on the entry for the endpoint. -/
theorem router_invariant_preserved (threshold : ℕ) (tbl : WorkerTable) :
    (∀ e, RouterInv threshold tbl →
      RouterInv threshold (Router.markFailed threshold tbl e)) ∧
    (∀ e now, 1 ≤ threshold → RouterInv threshold tbl →
      RouterInv threshold (Router.markHealthy tbl e now)) ∧
    (∀ e d, RouterInv threshold tbl →
      RouterInv threshold (Router.updateQueueDepth tbl e d)) ∧
    (∀ info, RouterInv threshold tbl →
      (threshold ≤ info.failureCount → info.healthy = false) →
      RouterInv threshold (Router.registerWorker tbl info)) ∧
    (∀ e now k w, (k, w) ∈ Router.markHealthy tbl e now → k = e →
      w.healthy = true ∧ w.failureCount = 0 ∧ w.lastHealthCheck = now) := by
  refine ⟨?_, ?_, ?_, ?_, ?_⟩
  · intro e hinv p hp hcnt
    obtain ⟨q, hq, hpq⟩ := List.mem_map.mp hp
    by_cases he : q.1 = e
    · simp only [he, if_true] at hpq
      by_cases hth : threshold ≤ q.2.failureCount + 1
      · simp only [hth, if_true] at hpq
        subst hpq
        rfl
      · simp only [hth, if_false] at hpq
        subst hpq
        exact absurd hcnt hth
    · simp only [he, if_false] at hpq
      subst hpq
      exact hinv q hq hcnt
  · intro e now h1 hinv p hp hcnt
    obtain ⟨q, hq, hpq⟩ := List.mem_map.mp hp
    by_cases he : q.1 = e
    · simp only [he, if_true] at hpq
      subst hpq
      simp only at hcnt
      exact absurd (le_trans h1 hcnt) (by decide)
    · simp only [he, if_false] at hpq
      subst hpq
      exact hinv q hq hcnt
  · intro e d hinv p hp hcnt
    obtain ⟨q, hq, hpq⟩ := List.mem_map.mp hp
    by_cases he : q.1 = e
    · simp only [he, if_true] at hpq
      subst hpq
      exact hinv q hq hcnt
    · simp only [he, if_false] at hpq
      subst hpq
      exact hinv q hq hcnt
  · intro info hinv hinfo p hp hcnt
    rcases List.mem_append.mp hp with h | h
    · exact hinv p (List.mem_of_mem_filter h) hcnt
    · rcases List.mem_singleton.mp h with rfl
      exact hinfo hcnt
  · intro e now k w hmem hke
    obtain ⟨q, hq, hpq⟩ := List.mem_map.mp hmem
    by_cases he : q.1 = e
    · simp only [he, if_true, Prod.mk.injEq] at hpq
      obtain ⟨-, hw⟩ := hpq
      subst hw
      exact ⟨rfl, rfl, rfl⟩
    · simp only [he, if_false] at hpq
      have : q = (k, w) := hpq
      subst this
      exact absurd hke he

/-- Witness for C7 amended at a concrete table: threshold 1, one registered
worker; `mark_healthy` keeps the invariant, and the resulting entry has the
health flag set, a zero failure counter and the new probe time. -/
theorem router_invariant_preserved_witness :
    RouterInv 1 (Router.markHealthy
      (Router.registerWorker [] (WorkerInfo.new "http://a" "worker-a" (0, 16) 0))
      "http://a" 7) ∧
    ({ WorkerInfo.new "http://a" "worker-a" (0, 16) 0 with
        lastHealthCheck := 7 }).healthy = true :=
  ⟨(router_invariant_preserved 1
      (Router.registerWorker [] (WorkerInfo.new "http://a" "worker-a" (0, 16) 0))).2.1
      "http://a" 7 (by decide) (by decide),
    ((router_invariant_preserved 1
      (Router.registerWorker [] (WorkerInfo.new "http://a" "worker-a" (0, 16) 0))).2.2.2.2
      "http://a" 7 "http://a" _ (by decide) rfl).1⟩

/-! ## SafeTensor container, from `crates/worker/src/tensor/safetensors.rs`

The mapped file is a `List ℕ` of bytes (each < 256).  `serde_json`
deserialization of the header bytes is outside the embedded code (the spec
places serialization with the external collaborators), so `open` is
parameterized by a `parseHeader` oracle returning the decoded header, or
`none` for invalid UTF-8 / malformed JSON; everything `open` itself does —
the length checks, the little-endian header-length read, and which checks
it does NOT perform — is embedded from the source. -/

/-- `TensorDType::from_str` (`TensorDType` tags and their parser). -/
inductive TensorDType where
  | F32
  | F16
  | I32
  | I8
  | U8
  | BOOL
deriving DecidableEq, Repr

/-- `TensorDType::size` in bytes. -/
def TensorDType.size : TensorDType → ℕ
  | .F32 => 4
  | .F16 => 2
  | .I32 => 4
  | .I8 => 1
  | .U8 => 1
  | .BOOL => 1

/-- `TensorDType::from_str`: the six recognized tags. -/
def TensorDType.fromStr (s : String) : Option TensorDType :=
  if s = "F32" then some .F32
  else if s = "F16" then some .F16
  else if s = "I32" then some .I32
  else if s = "I8" then some .I8
  else if s = "U8" then some .U8
  else if s = "BOOL" then some .BOOL
  else none

/-- `TensorInfo`: dtype tag as written in the JSON, shape, and the
`data_offsets` pair `[lo, hi]`. -/
structure TensorInfo where
  dtype : String
  shape : List ℕ
  dataOffsets : ℕ × ℕ
deriving DecidableEq, Repr

/-- `SafeTensorHeader`: tensor name to info, in iteration order. -/
structure SafeTensorHeader where
  tensors : List (String × TensorInfo)
deriving DecidableEq, Repr

/-- `SafeTensorBuffer`: the mapped bytes, the decoded header and the header
length. -/
structure SafeTensorBuffer where
  mmap : List ℕ
  header : SafeTensorHeader
  headerLen : ℕ
deriving DecidableEq, Repr

/-- Little-endian `u64` from the first 8 bytes (`u64::from_le_bytes`). -/
def leU64 (bs : List ℕ) : ℕ :=
  bs.getD 0 0 + 256 * bs.getD 1 0 + 256 ^ 2 * bs.getD 2 0 + 256 ^ 3 * bs.getD 3 0 +
    256 ^ 4 * bs.getD 4 0 + 256 ^ 5 * bs.getD 5 0 + 256 ^ 6 * bs.getD 6 0 +
    256 ^ 7 * bs.getD 7 0

/-- `SafeTensorBuffer::open` on already-mapped bytes: reject a file shorter
than 8 bytes, read the header length, reject when the header overruns the
file, hand the header bytes to the JSON decoder (`none` becomes a
`MemoryMap` error), and keep the mapping plus the parsed index.  No
per-tensor check of offsets, sizes or dtype tags is performed here. -/
def SafeTensorBuffer.openBytes (parseHeader : List ℕ → Option SafeTensorHeader)
    (file : List ℕ) : Except ChatLoopError SafeTensorBuffer :=
  if file.length < 8 then
    .error (ChatLoopError.MemoryMap "File too small to contain header")
  else
    let headerLen := leU64 (file.take 8)
    if file.length < 8 + headerLen then
      .error (ChatLoopError.MemoryMap "File truncated: header length exceeds file size")
    else
      match parseHeader ((file.drop 8).take headerLen) with
      | none => .error (ChatLoopError.MemoryMap "Invalid UTF-8 or malformed JSON in header")
      | some header => .ok { mmap := file, header := header, headerLen := headerLen }

/-- Association-list lookup standing in for `HashMap::get`. -/
def SafeTensorHeader.find (h : SafeTensorHeader) (name : String) : Option TensorInfo :=
  (h.tensors.find? (fun p => p.1 = name)).map (·.2)

/-- `SafeTensorBuffer::get_tensor`: resolve the name, compute the absolute
payload range, return `None` when the range overruns the mapping or the
dtype tag is unknown, otherwise the zero-copy view. -/
def SafeTensorBuffer.getTensor (b : SafeTensorBuffer) (name : String) :
    Option (List ℕ × List ℕ × TensorDType) :=
  match b.header.find name with
  | none => none
  | some info =>
    let dataStart := 8 + b.headerLen + info.dataOffsets.1
    let dataEnd := 8 + b.headerLen + info.dataOffsets.2
    if b.mmap.length < dataEnd then none
    else
      match TensorDType.fromStr info.dtype with
      | none => none
      | some dtype => some ((b.mmap.drop dataStart).take (dataEnd - dataStart), info.shape, dtype)

/-- The per-tensor size consistency check named by the claim:
`hi − lo = ∏shape · sizeof(dtype)` with a known dtype tag. -/
def tensorSizeConsistent (info : TensorInfo) : Prop :=
  ∃ dtype, TensorDType.fromStr info.dtype = some dtype ∧
    info.dataOffsets.2 - info.dataOffsets.1 = info.shape.prod * dtype.size

/-- A 12-byte demo file: header length 4 (little-endian), then 4 header
bytes (the ASCII of a JSON text) and no payload. -/
def demoBadFile : List ℕ :=
  [4, 0, 0, 0, 0, 0, 0, 0, 123, 125, 32, 32]

/-- The header the JSON decoder yields for the demo file: one tensor `w`
with the unrecognized dtype tag `F64`, shape `[2]` and offsets `[0, 1)` —
so `hi − lo = 1` cannot equal `∏shape · sizeof` for any dtype, and the
payload end `8 + 4 + 1 = 13` exceeds the 12-byte file. -/
def demoBadHeader : SafeTensorHeader :=
  { tensors := [("w", { dtype := "F64", shape := [2], dataOffsets := (0, 1) })] }

/-- The JSON decoding oracle for the demo file: it decodes exactly the
demo file's header bytes to `demoBadHeader` (as `serde_json` would) and
rejects everything else. -/
def demoParse (bs : List ℕ) : Option SafeTensorHeader :=
  if bs = [123, 125, 32, 32] then some demoBadHeader else none

/-- C5 counterexample: `open` succeeds on a container whose single tensor
has an unknown dtype tag, inconsistent offsets and a payload range past the
end of the file — none of the claimed per-tensor validations happen in
`open`, so it does not return a `MemoryMap` error there. -/
theorem safetensor_open_no_tensor_checks_cex :
    SafeTensorBuffer.openBytes demoParse demoBadFile =
      .ok { mmap := demoBadFile, header := demoBadHeader, headerLen := 4 } ∧
    (∀ info ∈ demoBadHeader.tensors, TensorDType.fromStr info.2.dtype = none ∧
      demoBadFile.length < 8 + 4 + info.2.dataOffsets.2 ∧
      ¬ tensorSizeConsistent info.2) := by
  refine ⟨rfl, ?_⟩
  intro info hinfo
  rcases List.mem_singleton.mp hinfo with rfl
  refine ⟨rfl, by decide, ?_⟩
  rintro ⟨dtype, hdt, -⟩
  simp [TensorDType.fromStr, demoBadHeader] at hdt

/-- C5 amended: `open` validates only the container lengths and the header
decoding — it succeeds exactly when the file holds at least 8 bytes, the
file covers the 8 + H header bytes, and the header bytes decode; per-tensor
problems are deferred to `get_tensor`, which returns `None` (not an error)
when the payload range overruns the mapping or the dtype tag is unknown,
and the `hi − lo = ∏shape · sizeof(dtype)` equation is checked nowhere. -/
theorem safetensor_open_validation :
    (∀ parseHeader file, (SafeTensorBuffer.openBytes parseHeader file).isOk ↔
      (8 ≤ file.length ∧ 8 + leU64 (file.take 8) ≤ file.length ∧
        (parseHeader ((file.drop 8).take (leU64 (file.take 8)))).isSome)) ∧
    (∀ (b : SafeTensorBuffer) (name : String) (view : List ℕ × List ℕ × TensorDType),
      b.getTensor name = some view →
      ∃ info, b.header.find name = some info ∧
        8 + b.headerLen + info.dataOffsets.2 ≤ b.mmap.length ∧
        TensorDType.fromStr info.dtype = some view.2.2) := by
  constructor
  · intro parseHeader file
    unfold SafeTensorBuffer.openBytes
    by_cases h8 : file.length < 8
    · simp [h8, Except.isOk, Except.toBool, Nat.not_le.mpr h8]
    · by_cases hH : file.length < 8 + leU64 (file.take 8)
      · simp [h8, hH, Except.isOk, Except.toBool, Nat.not_le.mpr hH]
      · match hp : parseHeader ((file.drop 8).take (leU64 (file.take 8))) with
        | none => simp [h8, hH, hp, Except.isOk, Except.toBool]
        | some hdr =>
          simp [h8, hH, hp, Except.isOk, Except.toBool, Nat.not_lt.mp h8, Nat.not_lt.mp hH]
  · intro b name view hv
    unfold SafeTensorBuffer.getTensor at hv
    match hf : b.header.find name with
    | none => rw [hf] at hv; cases hv
    | some info =>
      rw [hf] at hv
      simp only at hv
      by_cases hend : b.mmap.length < 8 + b.headerLen + info.dataOffsets.2
      · rw [if_pos hend] at hv; cases hv
      · rw [if_neg hend] at hv
        match hd : TensorDType.fromStr info.dtype with
        | none => rw [hd] at hv; cases hv
        | some dtype =>
          rw [hd] at hv
          refine ⟨info, rfl, Nat.not_lt.mp hend, ?_⟩
          rw [hd]
          cases hv
          rfl

/-- A well-formed 20-byte demo file: header length 4, 4 header bytes, and
8 payload bytes for one `U8` tensor of shape `[8]` at offsets `[0, 8)`. -/
def demoGoodFile : List ℕ :=
  [4, 0, 0, 0, 0, 0, 0, 0, 123, 125, 33, 33, 9, 8, 7, 6, 5, 4, 3, 2]

/-- Decoded header of the well-formed demo file. -/
def demoGoodHeader : SafeTensorHeader :=
  { tensors := [("w", { dtype := "U8", shape := [8], dataOffsets := (0, 8) })] }

/-- JSON decoding oracle for the well-formed demo file. -/
def demoGoodParse (bs : List ℕ) : Option SafeTensorHeader :=
  if bs = [123, 125, 33, 33] then some demoGoodHeader else none

/-- The buffer `open` yields on the well-formed demo file. -/
def demoGoodBuffer : SafeTensorBuffer :=
  { mmap := demoGoodFile, header := demoGoodHeader, headerLen := 4 }

/-- Witness for C5 amended: the open-characterization holds on the
well-formed demo file, and `get_tensor` on the resulting buffer yields a
view whose range fits the mapping and whose dtype tag is known. -/
theorem safetensor_open_validation_witness :
    (SafeTensorBuffer.openBytes demoGoodParse demoGoodFile).isOk ∧
    (∃ info, demoGoodBuffer.header.find "w" = some info ∧
      8 + demoGoodBuffer.headerLen + info.dataOffsets.2 ≤ demoGoodBuffer.mmap.length ∧
      TensorDType.fromStr info.dtype = some TensorDType.U8) :=
  ⟨(safetensor_open_validation.1 demoGoodParse demoGoodFile).mpr (by decide),
    safetensor_open_validation.2 demoGoodBuffer "w"
      ([9, 8, 7, 6, 5, 4, 3, 2], [8], TensorDType.U8) (by decide)⟩

/-! ## Tensor ops softmax, from `crates/worker/src/tensor/ops.rs`

Row elements are `ℚ`; the float `exp` intrinsic is an oracle parameter.
The source computes the row maximum with
`row.par_iter().reduce(|| zero, |a, b| a.max(b))` — a rayon reduce whose
identity element is zero, so the computed value is `max` folded from 0. -/

/-- The value the ops softmax subtracts from each row element (the `max`
local in the source): `max` folded over the row from the rayon identity 0. -/
def opsRowMaxArg (row : List ℚ) : ℚ :=
  row.foldl max 0

/-- Modelled from the spec's words, for comparison: the true maximum element
of a nonempty row (head `x`, tail `xs`). -/
def specRowMax (x : ℚ) (xs : List ℚ) : ℚ :=
  xs.foldl max x

/-- One row of the ops softmax: subtract `opsRowMaxArg`, exponentiate, and
normalize by the row's exp-sum. -/
def opsSoftmaxRow (expQ : ℚ → ℚ) (row : List ℚ) : List ℚ :=
  let m := opsRowMaxArg row
  let expSum := (row.map (fun x => expQ (x - m))).sum
  row.map (fun x => expQ (x - m) / expSum)

/-- `TensorOps::softmax`: rows of a 2D tensor, otherwise the flat data as
one row (the source's 1D branch). -/
def opsSoftmax (expQ : ℚ → ℚ) (data : List ℚ) (shape : List ℕ) : List ℚ :=
  match shape with
  | [r, c] => ((List.range r).map (fun i => opsSoftmaxRow expQ ((data.drop (i * c)).take c))).join
  | _ => opsSoftmaxRow expQ data

/-! ## Inference engine, from `crates/worker/src/inference.rs` and the
`ModelPartition` accessors of `crates/worker/src/model.rs`

`ModelPartition::get_tensor`'s byte-level f32/f16 decoding from the mapped
buffer is abstracted as the partition's `getTensorFn`; the name formatting,
the layer-range checks and the all-or-nothing bundle resolution are embedded
from the source.  The float intrinsics `exp`, `sqrt` and `sin` are oracle
parameters. -/

structure FloatOracles where
  expQ : ℚ → ℚ
  sqrtQ : ℚ → ℚ
  sinQ : ℚ → ℚ

structure LayerGroupConfig where
  startLayer : ℕ
  endLayer : ℕ
  totalLayers : ℕ
  numHeads : ℕ
  headDim : ℕ
  hiddenDim : ℕ
  intermediateDim : ℕ
deriving DecidableEq, Repr

structure AttentionWeights where
  qProj : List ℚ
  kProj : List ℚ
  vProj : List ℚ
  oProj : List ℚ
deriving DecidableEq, Repr

structure MlpWeights where
  gateProj : List ℚ
  upProj : List ℚ
  downProj : List ℚ
deriving DecidableEq, Repr

structure LayerNormWeights where
  attentionNorm : List ℚ
  ffnNorm : List ℚ
deriving DecidableEq, Repr

/-- The worker's model partition: its layer-group config and the tensor
lookup (name to decoded f32 data, `None` when the name is absent). -/
structure ModelPartition where
  config : LayerGroupConfig
  getTensorFn : String → Option (List ℚ)

/-- `ModelPartition::get_tensor`. -/
def ModelPartition.getTensor (m : ModelPartition) (name : String) : Option (List ℚ) :=
  m.getTensorFn name

/-- `ModelPartition::get_attention_weights`: `None` outside the owned layer
range, and the whole bundle is absent when any of the four names fails to
resolve. -/
def ModelPartition.getAttentionWeights (m : ModelPartition) (layerIdx : ℕ) :
    Option AttentionWeights := do
  if layerIdx < m.config.startLayer ∨ m.config.endLayer ≤ layerIdx then none
  else
    let pfx := "model.layers." ++ toString layerIdx
    let q ← m.getTensor (pfx ++ ".attention.wq.weight")
    let k ← m.getTensor (pfx ++ ".attention.wk.weight")
    let v ← m.getTensor (pfx ++ ".attention.wv.weight")
    let o ← m.getTensor (pfx ++ ".attention.wo.weight")
    some { qProj := q, kProj := k, vProj := v, oProj := o }

/-- `ModelPartition::get_mlp_weights`, same all-or-nothing rule. -/
def ModelPartition.getMlpWeights (m : ModelPartition) (layerIdx : ℕ) :
    Option MlpWeights := do
  if layerIdx < m.config.startLayer ∨ m.config.endLayer ≤ layerIdx then none
  else
    let pfx := "model.layers." ++ toString layerIdx
    let g ← m.getTensor (pfx ++ ".feed_forward.gate_proj.weight")
    let u ← m.getTensor (pfx ++ ".feed_forward.up_proj.weight")
    let d ← m.getTensor (pfx ++ ".feed_forward.down_proj.weight")
    some { gateProj := g, upProj := u, downProj := d }

/-- `ModelPartition::get_layer_norm`, same all-or-nothing rule. -/
def ModelPartition.getLayerNorm (m : ModelPartition) (layerIdx : ℕ) :
    Option LayerNormWeights := do
  if layerIdx < m.config.startLayer ∨ m.config.endLayer ≤ layerIdx then none
  else
    let pfx := "model.layers." ++ toString layerIdx
    let a ← m.getTensor (pfx ++ ".attention_norm.weight")
    let f ← m.getTensor (pfx ++ ".ffn_norm.weight")
    some { attentionNorm := a, ffnNorm := f }

/-- `Option::ok_or_else`. -/
def okOr (x : Option α) (e : ChatLoopError) : Except ChatLoopError α :=
  match x with
  | some a => .ok a
  | none => .error e

/-- Rust's `expr as usize` on an `i32`, on a 64-bit target. -/
def asUsize (t : ℤ) : ℕ :=
  (t % (2 ^ 64 : ℤ)).toNat

/-- Slice `&l[s..s+n]` of an `f32` buffer. -/
def sliceQ (l : List ℚ) (s n : ℕ) : List ℚ :=
  (l.drop s).take n

/-- `iter().zip(..).map(|(a,b)| a*b).sum()`. -/
def dotQ (a b : List ℚ) : ℚ :=
  ((a.zip b).map (fun p => p.1 * p.2)).sum

/-- `InferenceEngine::embed_tokens`: the demonstration embedding
`sin(token * (j+1) / 10000)` after reducing the token id modulo the vocab
size 32000 (through Rust's wrapping `as usize` cast). -/
def InferenceEngine.embedTokens (o : FloatOracles) (cfg : LayerGroupConfig)
    (tokens : List ℤ) : Except ChatLoopError (List ℚ) :=
  .ok (((List.range tokens.length).map (fun (i : ℕ) =>
    let token := asUsize (tokens.getD i 0) % 32000
    (List.range cfg.hiddenDim).map (fun (j : ℕ) =>
      o.sinQ ((token : ℚ) * ((j : ℚ) + 1) / 10000)))).join)

/-- `InferenceEngine::layer_norm` with `epsilon = 1e-5`. -/
def InferenceEngine.layerNorm (o : FloatOracles) (hs : List ℚ)
    (seqLen hiddenDim : ℕ) (weight : List ℚ) : Except ChatLoopError (List ℚ) :=
  .ok (((List.range seqLen).map (fun i =>
    let row := sliceQ hs (i * hiddenDim) hiddenDim
    let mean := row.sum / (hiddenDim : ℚ)
    let variance := (row.map (fun x => (x - mean) * (x - mean))).sum / (hiddenDim : ℚ)
    let std := o.sqrtQ (variance + 1 / 100000)
    (List.range hiddenDim).map (fun j =>
      (row.getD j 0 - mean) / std * weight.getD j 0))).join)

/-- The attention scores of query row `i` against all key rows:
`dot(q_vec, k_vec) / sqrt(head_dim)` (source lines 256-265; `q = k = v =
hidden_states` in this code). -/
def attnScoresRow (o : FloatOracles) (cfg : LayerGroupConfig) (hs : List ℚ)
    (seqLen i : ℕ) : List ℚ :=
  let qv := sliceQ hs (i * cfg.hiddenDim) cfg.headDim
  (List.range seqLen).map (fun j =>
    dotQ qv (sliceQ hs (j * cfg.hiddenDim) cfg.headDim) / o.sqrtQ (cfg.headDim : ℚ))

/-- The unnormalized attention weights of row `i`: the source comment is
"Softmax (simplified - just exp)" — `exp` is applied to the scaled score
directly, with nothing subtracted. -/
def attnWeightsRow (o : FloatOracles) (cfg : LayerGroupConfig) (hs : List ℚ)
    (seqLen i : ℕ) : List ℚ :=
  (attnScoresRow o cfg hs seqLen i).map o.expQ

/-- `InferenceEngine::self_attention`: per query row, accumulate
`attn_weight * v_vec` over all key rows, divide by the weight sum, and
write the `head_dim` results into an otherwise-zero `hidden_dim` row.
The layer index, projection weights and request are received but unused
by the source body (no cache append, no causal mask, no projections). -/
def InferenceEngine.selfAttention (o : FloatOracles) (cfg : LayerGroupConfig)
    (hs : List ℚ) (seqLen : ℕ) (layerIdx : ℕ) (w : AttentionWeights)
    (req : InferenceRequest) : Except ChatLoopError (List ℚ) :=
  .ok (((List.range seqLen).map (fun i =>
    let ws := attnWeightsRow o cfg hs seqLen i
    let attnSum := ws.sum
    let row := (List.range cfg.headDim).map (fun idx =>
      ((List.range seqLen).map (fun j =>
        ws.getD j 0 * (sliceQ hs (j * cfg.hiddenDim) cfg.headDim).getD idx 0)).sum / attnSum)
    row ++ List.replicate (cfg.hiddenDim - cfg.headDim) 0)).join)

/-- `InferenceEngine::mlp`: SwiGLU — gate with SiLU `s / (1 + exp(-s))`,
up projection, elementwise product, down projection. -/
def InferenceEngine.mlp (o : FloatOracles) (cfg : LayerGroupConfig)
    (hs : List ℚ) (seqLen : ℕ) (w : MlpWeights) : Except ChatLoopError (List ℚ) :=
  .ok (((List.range seqLen).map (fun i =>
    let row := sliceQ hs (i * cfg.hiddenDim) cfg.hiddenDim
    let gate := (List.range cfg.intermediateDim).map (fun j =>
      let s := ((List.range cfg.hiddenDim).map (fun k =>
        row.getD k 0 * w.gateProj.getD (j * cfg.hiddenDim + k) 0)).sum
      s / (1 + o.expQ (-s)))
    let up := (List.range cfg.intermediateDim).map (fun j =>
      ((List.range cfg.hiddenDim).map (fun k =>
        row.getD k 0 * w.upProj.getD (j * cfg.hiddenDim + k) 0)).sum)
    let hidden := (List.range cfg.intermediateDim).map (fun j =>
      gate.getD j 0 * up.getD j 0)
    (List.range cfg.hiddenDim).map (fun j =>
      ((List.range cfg.intermediateDim).map (fun k =>
        hidden.getD k 0 * w.downProj.getD (j * cfg.intermediateDim + k) 0)).sum))).join)

/-- `InferenceEngine::forward_layer`: fetch the three weight bundles (each
missing bundle is a `Model` error), then layer norm, self-attention,
residual add, layer norm, MLP, residual add. -/
def InferenceEngine.forwardLayer (o : FloatOracles) (m : ModelPartition)
    (layerIdx : ℕ) (hs : List ℚ) (req : InferenceRequest) :
    Except ChatLoopError (List ℚ) := do
  let attnW ← okOr (m.getAttentionWeights layerIdx)
    (ChatLoopError.Model ("No attention weights for layer " ++ toString layerIdx))
  let mlpW ← okOr (m.getMlpWeights layerIdx)
    (ChatLoopError.Model ("No MLP weights for layer " ++ toString layerIdx))
  let ln ← okOr (m.getLayerNorm layerIdx)
    (ChatLoopError.Model ("No layer norm for layer " ++ toString layerIdx))
  let seqLen := hs.length / m.config.hiddenDim
  let residual := hs
  let h1 ← InferenceEngine.layerNorm o hs seqLen m.config.hiddenDim ln.attentionNorm
  let att ← InferenceEngine.selfAttention o m.config h1 seqLen layerIdx attnW req
  let h2 := (residual.zip att).map (fun p => p.1 + p.2)
  let residual2 := h2
  let h3 ← InferenceEngine.layerNorm o h2 seqLen m.config.hiddenDim ln.ffnNorm
  let mo ← InferenceEngine.mlp o m.config h3 seqLen mlpW
  .ok ((residual2.zip mo).map (fun p => p.1 + p.2))

/-- `InferenceEngine::forward_request`: embed, then fold `forward_layer`
over the owned layer range. -/
def InferenceEngine.forwardRequest (o : FloatOracles) (m : ModelPartition)
    (req : InferenceRequest) : Except ChatLoopError (List ℚ) := do
  let init ← InferenceEngine.embedTokens o m.config req.tokens
  (List.range' m.config.startLayer (m.config.endLayer - m.config.startLayer)).foldlM
    (fun hs l => InferenceEngine.forwardLayer o m l hs req) init

/-- The batch loop of `forward_batch` (source lines 58-61):
`outputs.push(self.forward_request(request)?)` — the `?` aborts the loop at
the first failing request. -/
def forwardLoop (f : InferenceRequest → Except ChatLoopError (List ℚ)) :
    List InferenceRequest → List (List ℚ) → Except ChatLoopError (List (List ℚ))
  | [], acc => .ok acc
  | r :: rs, acc =>
    match f r with
    | .error e => .error e
    | .ok out => forwardLoop f rs (acc ++ [out])

/-- `InferenceEngine::forward_batch`: empty batches short-circuit to `[]`,
otherwise the batch loop. -/
def InferenceEngine.forwardBatch (o : FloatOracles) (m : ModelPartition)
    (batch : RequestBatch) : Except ChatLoopError (List (List ℚ)) :=
  if batch.requests.isEmpty then .ok []
  else forwardLoop (InferenceEngine.forwardRequest o m) batch.requests []

/-- First-error traversal: the specification-level description of a loop
that pushes each result and aborts on the first error. -/
def mapExcept (f : α → Except ChatLoopError β) : List α → Except ChatLoopError (List β)
  | [] => .ok []
  | a :: rest =>
    match f a with
    | .error e => .error e
    | .ok b =>
      match mapExcept f rest with
      | .error e => .error e
      | .ok bs => .ok (b :: bs)

/-- Pulling an element out of a `max` fold. -/
theorem foldl_max_pull (xs : List ℚ) : ∀ a b : ℚ,
    xs.foldl max (max a b) = max a (xs.foldl max b) := by
  induction xs with
  | nil => intro a b; rfl
  | cons y ys ih =>
    intro a b
    simp only [List.foldl_cons]
    rw [max_assoc, ih]

/-- C9 counterexample: on the all-negative row `[-1]`, the value the ops
softmax subtracts before exponentiation is 0 (the rayon reduce identity),
not the row's maximum element −1. -/
theorem softmax_max_arg_cex :
    opsRowMaxArg [(-1 : ℚ)] = 0 ∧ specRowMax (-1) [] = -1 ∧
    opsRowMaxArg [(-1 : ℚ)] ≠ specRowMax (-1) [] := by
  refine ⟨by decide, by decide, by decide⟩

/-- C9 amended: the ops softmax subtracts `max 0 (row max)` — the row's
maximum element exactly when that maximum is non-negative — while the
engine's attention normalization subtracts nothing (zero) from the scaled
scores before exponentiating. -/
theorem softmax_max_arg_amended :
    (∀ (x : ℚ) (xs : List ℚ), opsRowMaxArg (x :: xs) = max 0 (specRowMax x xs)) ∧
    (∀ (o : FloatOracles) (cfg : LayerGroupConfig) (hs : List ℚ) (seqLen i : ℕ),
      attnWeightsRow o cfg hs seqLen i =
        (attnScoresRow o cfg hs seqLen i).map (fun s => o.expQ (s - 0))) := by
  constructor
  · intro x xs
    unfold opsRowMaxArg specRowMax
    rw [List.foldl_cons]
    exact foldl_max_pull xs 0 x
  · intro o cfg hs seqLen i
    simp [attnWeightsRow, sub_zero]

/-- The batch loop equals the first-error traversal with the accumulated
prefix prepended. -/
theorem forwardLoop_eq_mapExcept (f : InferenceRequest → Except ChatLoopError (List ℚ))
    (rs : List InferenceRequest) : ∀ acc,
    forwardLoop f rs acc =
      match mapExcept f rs with
      | .error e => .error e
      | .ok bs => .ok (acc ++ bs) := by
  induction rs with
  | nil => intro acc; simp [forwardLoop, mapExcept]
  | cons r rest ih =>
    intro acc
    simp only [forwardLoop, mapExcept]
    cases hf : f r with
    | error e => rfl
    | ok out =>
      dsimp only
      rw [ih]
      cases hm : mapExcept f rest with
      | error e => rfl
      | ok bs => simp

/-- A successful first-error traversal means every element succeeded. -/
theorem mapExcept_ok_mem (f : InferenceRequest → Except ChatLoopError (List ℚ)) :
    ∀ (l : List InferenceRequest) (bs : List (List ℚ)), mapExcept f l = .ok bs →
      ∀ r ∈ l, ∃ out, f r = .ok out := by
  intro l
  induction l with
  | nil => intro bs _ r hr; cases hr
  | cons a rest ih =>
    intro bs h r hr
    simp only [mapExcept] at h
    cases hf : f a with
    | error e => rw [hf] at h; cases h
    | ok b =>
      rw [hf] at h
      cases hm : mapExcept f rest with
      | error e => rw [hm] at h; cases h
      | ok bs2 =>
        rcases List.mem_cons.mp hr with h2 | h2
        · exact ⟨b, by rw [h2]; exact hf⟩
        · exact ih bs2 hm r h2

/-- C1 amended: `forward_batch` is the first-error traversal of its
requests — it returns the per-request outputs only when every request
succeeds, and otherwise propagates the first failing request's error as the
error of the whole batch; in particular a successful batch result implies
every request in the batch succeeded on its own. -/
theorem forward_batch_first_error (o : FloatOracles) (m : ModelPartition)
    (batch : RequestBatch) :
    InferenceEngine.forwardBatch o m batch =
      mapExcept (InferenceEngine.forwardRequest o m) batch.requests ∧
    (∀ outs, InferenceEngine.forwardBatch o m batch = .ok outs →
      ∀ r ∈ batch.requests, ∃ out, InferenceEngine.forwardRequest o m r = .ok out) := by
  have h1 : InferenceEngine.forwardBatch o m batch =
      mapExcept (InferenceEngine.forwardRequest o m) batch.requests := by
    unfold InferenceEngine.forwardBatch
    by_cases he : batch.requests.isEmpty
    · rw [if_pos he, List.isEmpty_iff.mp he]
      rfl
    · rw [if_neg he, forwardLoop_eq_mapExcept]
      cases mapExcept (InferenceEngine.forwardRequest o m) batch.requests with
      | error e => rfl
      | ok bs => simp
  refine ⟨h1, fun outs hok r hr => ?_⟩
  rw [h1] at hok
  exact mapExcept_ok_mem _ batch.requests outs hok r hr

/-- Constant-valued float oracles for the demonstration runs. -/
def demoOracles : FloatOracles :=
  { expQ := fun _ => 1, sqrtQ := fun _ => 1, sinQ := fun _ => 1 }

/-- One-layer, one-dimensional layer group for the demonstration runs. -/
def demoCfg : LayerGroupConfig :=
  { startLayer := 0, endLayer := 1, totalLayers := 1, numHeads := 1,
    headDim := 1, hiddenDim := 1, intermediateDim := 1 }

/-- A single-token demo request. -/
def demoReq (id : String) : InferenceRequest :=
  { requestId := id, sequenceId := 0, tokens := [1], temperature := 1,
    topP := 1, topK := 1, maxTokens := 1, arrivalTime := 0 }

/-- A partition that resolves no tensor name: every layer's weight bundles
are missing. -/
def demoModelNoWeights : ModelPartition :=
  { config := demoCfg, getTensorFn := fun _ => none }

/-- A batch of two requests. -/
def demoBatchTwo : RequestBatch :=
  { requests := [demoReq "r1", demoReq "r2"], creationTime := 0, maxSeqLen := 1 }

/-- C1 counterexample: on a batch of two requests against a partition whose
layer-0 weight bundle is missing, `forward_batch` returns a single batch
error — no output and no request-scoped error for the second request — so a
per-request failure does fail the whole batch. -/
theorem forward_batch_abort_cex :
    InferenceEngine.forwardBatch demoOracles demoModelNoWeights demoBatchTwo =
      .error (ChatLoopError.Model "No attention weights for layer 0") ∧
    ∀ outs, InferenceEngine.forwardBatch demoOracles demoModelNoWeights demoBatchTwo ≠
      .ok outs := by
  have h1 : InferenceEngine.forwardBatch demoOracles demoModelNoWeights demoBatchTwo =
      .error (ChatLoopError.Model "No attention weights for layer 0") := by rfl
  exact ⟨h1, fun outs h => by rw [h1] at h; cases h⟩

/-- A layer group owning no layers: the engine passes the embedding through
unchanged, exercising the batch loop without per-layer arithmetic. -/
def demoCfgZero : LayerGroupConfig :=
  { startLayer := 0, endLayer := 0, totalLayers := 0, numHeads := 1,
    headDim := 1, hiddenDim := 1, intermediateDim := 1 }

/-- A partition over the empty layer range with every name resolving. -/
def demoModelZero : ModelPartition :=
  { config := demoCfgZero, getTensorFn := fun _ => some [1] }

/-- A one-request batch for the succeeding run. -/
def demoBatchZero : RequestBatch :=
  { requests := [demoReq "r1"], creationTime := 0, maxSeqLen := 1 }

/-- Evaluation of the demo embedding: the constant oracles send the single
token to the one-element row `[1]`. -/
theorem demoEmbedZero_eval :
    InferenceEngine.embedTokens demoOracles demoCfgZero [1] = .ok [1] := by
  norm_num [InferenceEngine.embedTokens, demoOracles, demoCfgZero, asUsize, List.range_succ]

/-- Evaluation of the demo request: the empty layer range returns the
embedding unchanged. -/
theorem demoRequestZero_eval :
    InferenceEngine.forwardRequest demoOracles demoModelZero (demoReq "r1") = .ok [1] := by
  simp only [InferenceEngine.forwardRequest, demoModelZero, demoReq,
    Bind.bind, Except.bind, demoEmbedZero_eval, Nat.sub_self, List.range', List.foldlM,
    Pure.pure, Except.pure]

/-- Evaluation of the demo batch: one request, one output. -/
theorem demoBatchZero_eval :
    InferenceEngine.forwardBatch demoOracles demoModelZero demoBatchZero = .ok [[1]] := by
  simp only [InferenceEngine.forwardBatch, demoBatchZero, forwardLoop, demoRequestZero_eval,
    List.isEmpty, Bool.false_eq_true, if_false, List.nil_append]

/-- Witness for C1 amended at a concrete succeeding batch: the one-request
batch returns outputs, and applying the theorem yields the per-request
success. -/
theorem forward_batch_first_error_witness :
    InferenceEngine.forwardBatch demoOracles demoModelZero demoBatchZero = .ok [[1]] ∧
    ∀ r ∈ demoBatchZero.requests, ∃ out,
      InferenceEngine.forwardRequest demoOracles demoModelZero r = .ok out :=
  ⟨demoBatchZero_eval,
    (forward_batch_first_error demoOracles demoModelZero demoBatchZero).2
      [[1]] demoBatchZero_eval⟩
